import Mathlib

/-!
Verification of the VS Code workspace-trust subsystem
(`WorkspaceTrustManagementService`, `WorkspaceTrustRequestService`,
`WorkspaceTrustTransitionManager`, `WorkspaceTrustState`).

The stateful TypeScript services are embedded shallowly: each method becomes a
pure Lean function over an explicit state value; awaited promises that can
reject are modelled with `Except`; event emitters are modelled as counters or
logs threaded through the state.  URI utilities (`extUri.isEqual`,
`extUri.isEqualOrParent`, `fsPath`, `removeTrailingPathSeparator`) are external
primitives per the spec; they are given a concrete executable model over
path-segment lists.
-/

set_option autoImplicit false

namespace WorkspaceTrust

/-- Model of a `URI`: a scheme together with the path split into segments.
`file:///a/b` is `⟨"file", ["a", "b"]⟩`. -/
structure URI where
  scheme : String
  path : List String
deriving DecidableEq, Repr

/-- Model of `uri.fsPath`: the path segments joined with `/`, with a leading
separator. -/
def fsPath (u : URI) : String :=
  "/" ++ String.intercalate "/" u.path

/-- Length of the `fsPath` string, used by `getUriTrustInfo` to pick the
longest match. -/
def fsPathLen (u : URI) : Nat :=
  (fsPath u).length

/-- Model of `extUri.isEqual`: exact URI equality. -/
def isEqualURI (a b : URI) : Bool :=
  decide (a = b)

/-- Model of `extUri.isEqualOrParent uri parent`: same scheme and the
candidate ancestor's segments form a prefix of the uri's segments. -/
def isEqualOrParent (uri parent : URI) : Bool :=
  decide (uri.scheme = parent.scheme) && parent.path.isPrefixOf uri.path

/-- Model of `URI.file(splitName(uri.fsPath).parentPath)`: the parent folder
of a file-scheme URI, obtained by dropping the last path segment. -/
def parentUri (u : URI) : URI :=
  { scheme := "file", path := u.path.dropLast }

/-- Model of `extUri.removeTrailingPathSeparator`: a path ending in a
separator has a trailing empty segment; drop it. -/
def removeTrailingPathSeparator (u : URI) : URI :=
  { u with path := if u.path.getLast? = some "" then u.path.dropLast else u.path }

/-- `IWorkspaceTrustUriInfo`: a trusted-folder entry, and also the result
shape of `getUriTrustInfo`. -/
structure WorkspaceTrustUriInfo where
  uri : URI
  trusted : Bool
deriving DecidableEq, Repr

/-- `WorkbenchState` of the workspace service. -/
inductive WorkbenchState where
  | empty
  | folder
  | workspace
deriving DecidableEq, Repr

/-- The environment the trust services read from: configuration, environment
service, remote authority resolution, and the workspace service.
`remoteResolution` models the `_remoteAuthority` field: `none` while
resolution is pending, `some flag` once resolved where `flag` is
`options?.isTrusted`.  `singleFolder` models
`toWorkspaceIdentifier(getWorkspace())` being a single-folder identifier.
`entries` is the in-memory `_trustStateInfo.uriTrustInfo` list. -/
structure Ctx where
  trustEnabled : Bool
  extensionTests : Bool
  remoteAuthority : Bool
  remoteResolution : Option (Option Bool)
  workbenchState : WorkbenchState
  folders : List URI
  configuration : Option URI
  configurationUntitled : Bool
  singleFolder : Option URI
  canonical : URI → URI
  entries : List WorkspaceTrustUriInfo

/-- The loop of `getUriTrustInfo`: walk the entry list keeping the state,
max `fsPath` length seen (`-1` initially) and result URI of the best match
so far. -/
def getUriTrustInfoGo (uri : URI) :
    List WorkspaceTrustUriInfo → Bool → Int → URI → WorkspaceTrustUriInfo
  | [], resultState, _, resultUri => ⟨resultUri, resultState⟩
  | e :: rest, resultState, maxLength, resultUri =>
    if isEqualOrParent uri e.uri then
      if (fsPathLen e.uri : Int) > maxLength then
        getUriTrustInfoGo uri rest e.trusted (fsPathLen e.uri) e.uri
      else
        getUriTrustInfoGo uri rest resultState maxLength resultUri
    else
      getUriTrustInfoGo uri rest resultState maxLength resultUri

/-- `WorkspaceTrustManagementService.getUriTrustInfo`: longest
ancestor-or-equal match among the trusted entries; `{uri, trusted := false}`
when nothing matches. -/
def getUriTrustInfo (entries : List WorkspaceTrustUriInfo) (uri : URI) :
    WorkspaceTrustUriInfo :=
  getUriTrustInfoGo uri entries false (-1) uri

/-- `getCanonicalUri`: ask the remote authority resolver for the canonical
URI only when a remote authority is configured and already resolved. -/
def getCanonicalUri (c : Ctx) (u : URI) : URI :=
  if c.remoteAuthority && c.remoteResolution.isSome then c.canonical u else u

/-- `getWorkspaceUris`: canonicalized workspace folder URIs, plus the
workspace configuration file URI when present and not an untitled
workspace. -/
def getWorkspaceUris (c : Ctx) : List URI :=
  c.folders.map (getCanonicalUri c) ++
    match c.configuration with
    | some cfg => if ¬ c.configurationUntitled then [getCanonicalUri c cfg] else []
    | none => []

/-- `getUrisTrust`: `true` unless some URI resolves untrusted (the source
loop returns `false` at the first untrusted URI). -/
def getUrisTrust (entries : List WorkspaceTrustUriInfo) : List URI → Bool
  | [] => true
  | u :: rest =>
    if (getUriTrustInfo entries u).trusted then getUrisTrust entries rest
    else false

/-- `WorkspaceTrustManagementService.calculateWorkspaceTrust`.
`stateIsTrusted` is the per-workspace memento `_trustState.isTrusted`. -/
def calculateWorkspaceTrust (c : Ctx) (stateIsTrusted : Option Bool) : Bool :=
  if ¬ c.trustEnabled then true
  else if c.extensionTests then true
  else if c.remoteAuthority then (c.remoteResolution.bind id).getD false
  else if c.workbenchState = WorkbenchState.empty then stateIsTrusted.getD false
  else getUrisTrust c.entries (getWorkspaceUris c)

/-- Spec-side restatement of claim C1's decision table (written from the
spec's words, to be compared with `calculateWorkspaceTrust`). -/
def calculateTrustSpec (c : Ctx) (stateIsTrusted : Option Bool) : Bool :=
  if ¬ c.trustEnabled then true
  else if c.extensionTests then true
  else if c.remoteAuthority then
    match c.remoteResolution with
    | none => false
    | some none => false
    | some (some flag) => flag
  else if c.workbenchState = WorkbenchState.empty then
    match stateIsTrusted with
    | none => false
    | some b => b
  else
    (getWorkspaceUris c).all fun u => (getUriTrustInfo c.entries u).trusted

/-- `loadTrustInfo`: the stored value, parsed.  `none` models an absent key,
corrupt JSON, or a missing `uriTrustInfo` field (all of which the source
replaces by the empty list); the `map` mirrors `URI.revive` (identity in this
model) and the `filter` drops entries deserialized with `trusted = false`. -/
def loadTrustInfo (raw : Option (List WorkspaceTrustUriInfo)) :
    List WorkspaceTrustUriInfo :=
  ((raw.getD []).map fun info => ⟨info.uri, info.trusted⟩).filter fun info =>
    info.trusted

/-- The per-URI loop body of `setUrisTrust`, recursing over the URI list and
threading the entry list and the `changed` flag. -/
def setUrisTrustGo (trusted : Bool) :
    List URI → List WorkspaceTrustUriInfo → Bool →
      List WorkspaceTrustUriInfo × Bool
  | [], entries, changed => (entries, changed)
  | uri :: rest, entries, changed =>
    if trusted then
      if entries.any (fun trustInfo => isEqualURI trustInfo.uri uri) then
        setUrisTrustGo trusted rest entries changed
      else
        setUrisTrustGo trusted rest (entries ++ [⟨uri, true⟩]) true
    else
      let filtered :=
        entries.filter fun trustInfo => ! isEqualURI trustInfo.uri uri
      if filtered.length ≠ entries.length then
        setUrisTrustGo trusted rest filtered true
      else
        setUrisTrustGo trusted rest filtered changed

/-- `WorkspaceTrustManagementService.setUrisTrust` as a pure function on the
entry list: returns the new entry list and the `changed` flag. -/
def setUrisTrust (entries : List WorkspaceTrustUriInfo) (uris : List URI)
    (trusted : Bool) : List WorkspaceTrustUriInfo × Bool :=
  setUrisTrustGo trusted uris entries false

/-- Observable side effects of the management service around the entry list:
`saves` counts `storageService.store` calls, `trustedFoldersEvents` counts
`_onDidChangeTrustedFolders.fire()` calls, `trustUpdates` counts
`updateWorkspaceTrust()` invocations. -/
structure StoreState where
  entries : List WorkspaceTrustUriInfo
  saves : Nat
  trustedFoldersEvents : Nat
  trustUpdates : Nat
deriving DecidableEq, Repr

/-- `saveTrustInfo`: stores the entry list, fires the trusted-folders change
event, and runs `updateWorkspaceTrust`. -/
def saveTrustInfoOp (st : StoreState) : StoreState :=
  { st with
      saves := st.saves + 1
      trustedFoldersEvents := st.trustedFoldersEvents + 1
      trustUpdates := st.trustUpdates + 1 }

/-- `setUrisTrust` together with its conditional `saveTrustInfo` call. -/
def setUrisTrustOp (st : StoreState) (uris : List URI) (trusted : Bool) :
    StoreState :=
  let result := setUrisTrust st.entries uris trusted
  let st' : StoreState := { st with entries := result.1 }
  if result.2 then saveTrustInfoOp st' else st'

/-- The loop of `setTrustedFolders`: rebuild the entry list from the given
URIs, cleaning trailing separators and skipping exact duplicates. -/
def setTrustedFoldersGo :
    List URI → List WorkspaceTrustUriInfo → List WorkspaceTrustUriInfo
  | [], acc => acc
  | uri :: rest, acc =>
    let cleanUri := removeTrailingPathSeparator uri
    if acc.any (fun addedUri => isEqualURI addedUri.uri cleanUri) then
      setTrustedFoldersGo rest acc
    else
      setTrustedFoldersGo rest (acc ++ [⟨cleanUri, true⟩])

/-- `WorkspaceTrustManagementService.setTrustedFolders` (entry-list part;
the unconditional `saveTrustInfo` that follows is not needed by the
claims). -/
def setTrustedFolders (uris : List URI) : List WorkspaceTrustUriInfo :=
  setTrustedFoldersGo uris []

/-- The `WorkspaceTrustState` memento object: both fields live in
workspace-scoped storage and may be unset (`none` models the JS
`undefined`). -/
structure TrustMemento where
  isTrusted : Option Bool
  acceptsRaw : Option Bool
deriving DecidableEq, Repr

/-- The `acceptsOutOfWorkspaceFiles` getter: `?? false`. -/
def acceptsOutOfWorkspaceFiles (s : TrustMemento) : Bool :=
  s.acceptsRaw.getD false

/-- The `isTrusted` setter of `WorkspaceTrustState`: stores the value and,
when the value is falsy (`false` or `undefined`), also overwrites
`acceptsOutOfWorkspaceFiles` with that value, then saves the memento. -/
def setIsTrusted (s : TrustMemento) (value : Option Bool) : TrustMemento :=
  if value.getD false then { s with isTrusted := value }
  else { isTrusted := value, acceptsRaw := value }

/-- `WorkspaceTrustManagementService.isWorkpaceTrusted` (source spelling):
the memento value, defaulting to `false`. -/
def isWorkpaceTrusted (s : TrustMemento) : Bool :=
  s.isTrusted.getD false

/-- A transition participant registered with the
`WorkspaceTrustTransitionManager`: an identifier (its registration slot) and
its async callback, whose rejection is modelled by `Except.error`. -/
structure Participant where
  id : Nat
  behavior : Bool → Except String Unit

/-- `WorkspaceTrustTransitionManager.participate`: invoke each participant in
registration order, awaiting each; a rejection aborts the loop.  Returns the
ids of the participants that were invoked (in order) and the error of the
first rejection, if any. -/
def participateRun (trusted : Bool) :
    List Participant → List Nat × Option String
  | [] => ([], none)
  | p :: rest =>
    match p.behavior trusted with
    | Except.ok _ =>
      let r := participateRun trusted rest
      (p.id :: r.1, r.2)
    | Except.error e => ([p.id], some e)

/-- Mutable state touched by `updateWorkspaceTrust`: the per-workspace
memento and the log of `_onDidChangeTrust` events fired so far. -/
structure UpdateState where
  trustState : TrustMemento
  firedTrust : List Bool
deriving DecidableEq, Repr

/-- The first line of `updateWorkspaceTrust`: use the explicit argument when
given, otherwise recompute via `calculateWorkspaceTrust`. -/
def resolveTrusted (c : Ctx) (explicit : Option Bool) (s : UpdateState) : Bool :=
  match explicit with
  | some b => b
  | none => calculateWorkspaceTrust c s.trustState.isTrusted

/-- `WorkspaceTrustManagementService.updateWorkspaceTrust`: no-op when the
value is unchanged; otherwise assign the new value to the trust state, run
the transition participants, and fire `_onDidChangeTrust` only if they all
succeeded.  Returns the new state, the ids of the participants that ran, and
the propagated rejection, if any. -/
def updateWorkspaceTrust (ps : List Participant) (c : Ctx)
    (explicit : Option Bool) (s : UpdateState) :
    UpdateState × List Nat × Option String :=
  let trusted := resolveTrusted c explicit s
  if isWorkpaceTrusted s.trustState = trusted then (s, [], none)
  else
    let s1 : UpdateState :=
      { s with trustState := setIsTrusted s.trustState (some trusted) }
    let r := participateRun trusted ps
    match r.2 with
    | some e => (s1, r.1, some e)
    | none => ({ s1 with firedTrust := s1.firedTrust ++ [trusted] }, r.1, none)

/-- `WorkspaceTrustManagementService.canSetParentFolderTrust`: single-folder
workspace whose folder has the `file` scheme. -/
def canSetParentFolderTrust (c : Ctx) : Bool :=
  match c.singleFolder with
  | some u => decide (u.scheme = "file")
  | none => false

/-- `WorkspaceTrustManagementService.canSetWorkspaceTrust`. -/
def canSetWorkspaceTrust (c : Ctx) (stateIsTrusted : Option Bool) : Bool :=
  if c.remoteAuthority
      && (c.remoteResolution.isNone || (c.remoteResolution.bind id).isSome) then
    false
  else if c.workbenchState = WorkbenchState.empty then true
  else if ¬ (stateIsTrusted.getD false) then true
  else
    match c.singleFolder with
    | none => false
    | some u =>
      if ¬ decide (u.scheme = "file") then false
      else
        let trustInfo := getUriTrustInfo c.entries u
        if ¬ trustInfo.trusted || ¬ isEqualURI u trustInfo.uri then false
        else if canSetParentFolderTrust c then
          if (getUriTrustInfo c.entries (parentUri u)).trusted then false
          else true
        else true

/-- State of the `WorkspaceTrustRequestService`: the cached `trusted`
boolean, the pending modal request promise (identified by a serial number to
model promise identity), the next fresh promise id, and the number of
`_onDidInitiateWorkspaceTrustRequest` events fired. -/
structure RequestState where
  trusted : Bool
  pending : Option Nat
  nextId : Nat
  initiations : Nat
deriving DecidableEq, Repr

/-- What a `requestWorkspaceTrust` call hands back to its caller: either an
immediately returned boolean or a (possibly shared) pending promise. -/
inductive RequestOutcome where
  | immediate (trusted : Bool)
  | promise (id : Nat)
deriving DecidableEq, Repr

/-- `WorkspaceTrustRequestService.requestWorkspaceTrust`: immediate `true`
when already trusted; otherwise reuse the pending promise when there is one,
else create a fresh promise and fire the initiate-request event. -/
def requestWorkspaceTrust (s : RequestState) : RequestState × RequestOutcome :=
  if s.trusted then (s, RequestOutcome.immediate s.trusted)
  else
    match s.pending with
    | some id => (s, RequestOutcome.promise id)
    | none =>
      ({ s with
          pending := some s.nextId
          nextId := s.nextId + 1
          initiations := s.initiations + 1 },
        RequestOutcome.promise s.nextId)

/-- `resolveRequest`: resolve the pending promise with `trusted ?? this.trusted`
and clear it.  The second component reports the resolution performed, if any:
the promise id and the value handed to every holder of that promise
(`none` would mean `undefined`; `resolveRequest` always passes a boolean). -/
def resolveRequest (s : RequestState) (trusted : Option Bool) :
    RequestState × Option (Nat × Option Bool) :=
  match s.pending with
  | some id =>
    ({ s with pending := none }, some (id, some (trusted.getD s.trusted)))
  | none => (s, none)

/-- `WorkspaceTrustRequestService.cancelRequest`: resolve the pending promise
with `undefined` (modelled as `none`) and clear it. -/
def cancelRequest (s : RequestState) : RequestState × Option (Nat × Option Bool) :=
  match s.pending with
  | some id => ({ s with pending := none }, some (id, none))
  | none => (s, none)

/-- The effect of `setWorkspaceTrust(trusted)` as seen from the request
service: the management service transitions and fires `onDidChangeTrust`,
whose handler updates the cached `trusted` field. -/
def setWorkspaceTrustModel (s : RequestState) (trusted : Bool) : RequestState :=
  { s with trusted := trusted }

/-- `WorkspaceTrustRequestService.completeRequest`: when the argument is
`undefined` or equals the cached trust, resolve the promise without
persisting; otherwise persist via `setWorkspaceTrust` first, then resolve. -/
def completeRequest (s : RequestState) (trusted : Option Bool) :
    RequestState × Option (Nat × Option Bool) :=
  match trusted with
  | none => resolveRequest s none
  | some b =>
    if b = s.trusted then resolveRequest s (some b)
    else resolveRequest (setWorkspaceTrustModel s b) (some b)

/-! ### Concrete URIs used by the scenario parts of the claims -/

/-- The folder `/a`. -/
def uriA : URI := ⟨"file", ["a"]⟩

/-- The folder `/a/b`. -/
def uriAB : URI := ⟨"file", ["a", "b"]⟩

/-- The path `/a/b/c`. -/
def uriABC : URI := ⟨"file", ["a", "b", "c"]⟩

/-- A trusted-entry list containing exactly `/a`. -/
def entriesA : List WorkspaceTrustUriInfo := [⟨uriA, true⟩]

/-- A context with no remote authority, a single trusted folder `/a`, and
the trust feature enabled; used to instantiate universally quantified
theorems at a concrete input. -/
def ctx0 : Ctx where
  trustEnabled := true
  extensionTests := false
  remoteAuthority := false
  remoteResolution := none
  workbenchState := WorkbenchState.folder
  folders := [uriA]
  configuration := none
  configurationUntitled := false
  singleFolder := some uriA
  canonical := fun u => u
  entries := entriesA

/-- An update state whose memento is entirely unset. -/
def st0 : UpdateState := ⟨⟨none, none⟩, []⟩

/-- A transition participant that always rejects. -/
def part1 : Participant := ⟨1, fun _ => Except.error "fail"⟩

/-- A transition participant that always succeeds. -/
def part2 : Participant := ⟨2, fun _ => Except.ok ()⟩

/-! ### Helper lemmas -/

theorem getUrisTrust_eq_all (entries : List WorkspaceTrustUriInfo) :
    ∀ uris : List URI,
      getUrisTrust entries uris
        = uris.all fun u => (getUriTrustInfo entries u).trusted
  | [] => rfl
  | u :: rest => by
    simp only [getUrisTrust, List.all_cons]
    cases h : (getUriTrustInfo entries u).trusted <;>
      simp [h, getUrisTrust_eq_all entries rest]

theorem getUriTrustInfoGo_no_match (uri : URI) :
    ∀ (l : List WorkspaceTrustUriInfo) (st : Bool) (ml : Int) (ru : URI),
      (∀ e ∈ l, isEqualOrParent uri e.uri = true → (fsPathLen e.uri : Int) ≤ ml) →
      getUriTrustInfoGo uri l st ml ru = ⟨ru, st⟩
  | [], _, _, _, _ => rfl
  | e :: rest, st, ml, ru, h => by
    have hrest := fun e' he' => h e' (List.mem_cons_of_mem _ he')
    by_cases hm : isEqualOrParent uri e.uri = true
    · have hle := h e (List.mem_cons_self _ _) hm
      simp only [getUriTrustInfoGo, hm, if_true, not_lt.mpr hle, gt_iff_lt,
        if_false]
      exact getUriTrustInfoGo_no_match uri rest st ml ru hrest
    · simp only [getUriTrustInfoGo, hm, if_false]
      exact getUriTrustInfoGo_no_match uri rest st ml ru hrest

theorem getUriTrustInfoGo_match (uri : URI) :
    ∀ (l : List WorkspaceTrustUriInfo) (st : Bool) (ml : Int) (ru : URI),
      (∃ e ∈ l, isEqualOrParent uri e.uri = true ∧ ml < (fsPathLen e.uri : Int)) →
      ∃ e ∈ l, isEqualOrParent uri e.uri = true ∧
        getUriTrustInfoGo uri l st ml ru = ⟨e.uri, e.trusted⟩ ∧
        ml < (fsPathLen e.uri : Int) ∧
        ∀ e' ∈ l, isEqualOrParent uri e'.uri = true →
          (fsPathLen e'.uri : Int) ≤ (fsPathLen e.uri : Int)
  | [], _, _, _, h => absurd h (by simp)
  | e0 :: rest, st, ml, ru, h => by
    by_cases hm : isEqualOrParent uri e0.uri = true ∧ ml < (fsPathLen e0.uri : Int)
    · simp only [getUriTrustInfoGo, hm.1, if_true, gt_iff_lt, hm.2]
      by_cases hex : ∃ e ∈ rest, isEqualOrParent uri e.uri = true ∧
          (fsPathLen e0.uri : Int) < (fsPathLen e.uri : Int)
      · obtain ⟨e, hmem, hem, hgo, hgt, hmax⟩ :=
          getUriTrustInfoGo_match uri rest e0.trusted (fsPathLen e0.uri) e0.uri hex
        refine ⟨e, List.mem_cons_of_mem _ hmem, hem, hgo, lt_trans hm.2 hgt, ?_⟩
        intro e' he' hm'
        rcases List.mem_cons.mp he' with rfl | he'
        · exact le_of_lt hgt
        · exact hmax e' he' hm'
      · push_neg at hex
        have hgo := getUriTrustInfoGo_no_match uri rest e0.trusted
          (fsPathLen e0.uri) e0.uri (fun e' he' hm' => hex e' he' hm')
        refine ⟨e0, List.mem_cons_self _ _, hm.1, hgo, hm.2, ?_⟩
        intro e' he' hm'
        rcases List.mem_cons.mp he' with rfl | he'
        · exact le_refl _
        · exact hex e' he' hm'
    · obtain ⟨e, hmem, hem, hgt⟩ := h
      have hmem' : e ∈ rest := by
        rcases List.mem_cons.mp hmem with rfl | h'
        · exact absurd ⟨hem, hgt⟩ hm
        · exact h'
      have hrec :
          ∃ e ∈ rest, isEqualOrParent uri e.uri = true ∧
            getUriTrustInfoGo uri rest st ml ru = ⟨e.uri, e.trusted⟩ ∧
            ml < (fsPathLen e.uri : Int) ∧
            ∀ e' ∈ rest, isEqualOrParent uri e'.uri = true →
              (fsPathLen e'.uri : Int) ≤ (fsPathLen e.uri : Int) :=
        getUriTrustInfoGo_match uri rest st ml ru ⟨e, hmem', hem, hgt⟩
      obtain ⟨e1, hmem1, hem1, hgo1, hgt1, hmax1⟩ := hrec
      have hgo0 : getUriTrustInfoGo uri (e0 :: rest) st ml ru
          = getUriTrustInfoGo uri rest st ml ru := by
        by_cases hm0 : isEqualOrParent uri e0.uri = true
        · have hle : ¬ ml < (fsPathLen e0.uri : Int) := fun hc => hm ⟨hm0, hc⟩
          simp only [getUriTrustInfoGo, hm0, if_true, gt_iff_lt, hle, if_false]
        · simp [getUriTrustInfoGo, hm0]
      refine ⟨e1, List.mem_cons_of_mem _ hmem1, hem1, hgo0 ▸ hgo1, hgt1, ?_⟩
      intro e' he' hm'
      rcases List.mem_cons.mp he' with rfl | he'
      · have hle : ¬ ml < (fsPathLen e'.uri : Int) := fun hc => hm ⟨hm', hc⟩
        exact le_trans (not_lt.mp hle) (le_of_lt hgt1)
      · exact hmax1 e' he' hm'

theorem setUrisTrustGo_changed_mono :
    ∀ (t : Bool) (uris : List URI) (entries : List WorkspaceTrustUriInfo),
      (setUrisTrustGo t uris entries true).2 = true
  | _, [], _ => rfl
  | t, _ :: rest, entries => by
    simp only [setUrisTrustGo]
    split
    · split
      · exact setUrisTrustGo_changed_mono t rest entries
      · exact setUrisTrustGo_changed_mono t rest _
    · split
      · exact setUrisTrustGo_changed_mono t rest _
      · exact setUrisTrustGo_changed_mono t rest _

theorem setUrisTrustGo_true_length_le :
    ∀ (uris : List URI) (entries : List WorkspaceTrustUriInfo) (ch : Bool),
      entries.length ≤ (setUrisTrustGo true uris entries ch).1.length
  | [], _, _ => le_refl _
  | uri :: rest, entries, ch => by
    simp only [setUrisTrustGo, if_true]
    split
    · exact setUrisTrustGo_true_length_le rest entries ch
    · calc entries.length ≤ (entries ++ [(⟨uri, true⟩ : WorkspaceTrustUriInfo)]).length := by
            simp
        _ ≤ _ := setUrisTrustGo_true_length_le rest _ true

theorem setUrisTrustGo_true_changed_lt :
    ∀ (uris : List URI) (entries : List WorkspaceTrustUriInfo),
      (setUrisTrustGo true uris entries false).2 = true →
      entries.length < (setUrisTrustGo true uris entries false).1.length
  | [], entries, h => by simp [setUrisTrustGo] at h
  | uri :: rest, entries, h => by
    revert h
    simp only [setUrisTrustGo, if_true]
    split
    · intro h
      exact setUrisTrustGo_true_changed_lt rest entries h
    · intro _
      have h1 : entries.length < (entries ++ [(⟨uri, true⟩ : WorkspaceTrustUriInfo)]).length := by simp
      exact lt_of_lt_of_le h1 (setUrisTrustGo_true_length_le rest _ true)

theorem setUrisTrustGo_true_unchanged :
    ∀ (uris : List URI) (entries : List WorkspaceTrustUriInfo),
      (setUrisTrustGo true uris entries false).2 = false →
      (setUrisTrustGo true uris entries false).1 = entries
  | [], _, _ => rfl
  | uri :: rest, entries, h => by
    revert h
    simp only [setUrisTrustGo, if_true]
    split
    · intro h
      exact setUrisTrustGo_true_unchanged rest entries h
    · intro h
      rw [setUrisTrustGo_changed_mono true rest _] at h
      exact absurd h (by simp)

theorem setUrisTrustGo_false_length_le :
    ∀ (uris : List URI) (entries : List WorkspaceTrustUriInfo) (ch : Bool),
      (setUrisTrustGo false uris entries ch).1.length ≤ entries.length
  | [], _, _ => le_refl _
  | uri :: rest, entries, ch => by
    simp only [setUrisTrustGo, Bool.false_eq_true, if_false]
    split
    · exact le_trans (setUrisTrustGo_false_length_le rest _ true)
        (List.length_filter_le _ _)
    · exact le_trans (setUrisTrustGo_false_length_le rest _ ch)
        (List.length_filter_le _ _)

theorem setUrisTrustGo_false_changed_lt :
    ∀ (uris : List URI) (entries : List WorkspaceTrustUriInfo),
      (setUrisTrustGo false uris entries false).2 = true →
      (setUrisTrustGo false uris entries false).1.length < entries.length
  | [], entries, h => by simp [setUrisTrustGo] at h
  | uri :: rest, entries, h => by
    revert h
    simp only [setUrisTrustGo, Bool.false_eq_true, if_false]
    split
    case isTrue hne =>
      intro _
      have hlt : (entries.filter fun trustInfo =>
          ! isEqualURI trustInfo.uri uri).length < entries.length :=
        lt_of_le_of_ne (List.length_filter_le _ _) hne
      exact lt_of_le_of_lt (setUrisTrustGo_false_length_le rest _ true) hlt
    case isFalse heq =>
      intro h
      have := setUrisTrustGo_false_changed_lt rest _ h
      omega

theorem setUrisTrustGo_false_unchanged :
    ∀ (uris : List URI) (entries : List WorkspaceTrustUriInfo),
      (setUrisTrustGo false uris entries false).2 = false →
      (setUrisTrustGo false uris entries false).1 = entries
  | [], _, _ => rfl
  | uri :: rest, entries, h => by
    revert h
    simp only [setUrisTrustGo, Bool.false_eq_true, if_false]
    split
    case isTrue hne =>
      intro h
      rw [setUrisTrustGo_changed_mono false rest _] at h
      exact absurd h (by simp)
    case isFalse heq =>
      intro h
      have hfe : (entries.filter fun trustInfo =>
          ! isEqualURI trustInfo.uri uri) = entries :=
        (List.filter_sublist entries).eq_of_length (by omega)
      rw [setUrisTrustGo_false_unchanged rest _ h, hfe]

theorem setUrisTrust_unchanged_of_not_changed
    (entries : List WorkspaceTrustUriInfo) (uris : List URI) (t : Bool) :
    (setUrisTrust entries uris t).2 = false →
    (setUrisTrust entries uris t).1 = entries := by
  cases t
  · exact setUrisTrustGo_false_unchanged uris entries
  · exact setUrisTrustGo_true_unchanged uris entries

theorem setUrisTrust_changed_of_ne
    (entries : List WorkspaceTrustUriInfo) (uris : List URI) (t : Bool) :
    (setUrisTrust entries uris t).2 = true →
    (setUrisTrust entries uris t).1 ≠ entries := by
  cases t
  · intro h heq
    have hlt := setUrisTrustGo_false_changed_lt uris entries h
    have heq' : (setUrisTrustGo false uris entries false).1 = entries := heq
    rw [heq'] at hlt
    exact absurd hlt (lt_irrefl _)
  · intro h heq
    have hlt := setUrisTrustGo_true_changed_lt uris entries h
    have heq' : (setUrisTrustGo true uris entries false).1 = entries := heq
    rw [heq'] at hlt
    exact absurd hlt (lt_irrefl _)

theorem setUrisTrust_single_false (entries : List WorkspaceTrustUriInfo)
    (u : URI) :
    (setUrisTrust entries [u] false).1
      = entries.filter fun trustInfo => ! isEqualURI trustInfo.uri u := by
  simp only [setUrisTrust, setUrisTrustGo, Bool.false_eq_true, if_false]
  split <;> rfl

theorem setUrisTrust_single_true_idem (entries : List WorkspaceTrustUriInfo)
    (u : URI) :
    setUrisTrust (setUrisTrust entries [u] true).1 [u] true
      = ((setUrisTrust entries [u] true).1, false) := by
  by_cases h : entries.any (fun trustInfo => isEqualURI trustInfo.uri u) = true
  · have h1 : setUrisTrust entries [u] true = (entries, false) := by
      simp [setUrisTrust, setUrisTrustGo, h]
    rw [h1]
    simp [setUrisTrust, setUrisTrustGo, h]
  · have h1 : setUrisTrust entries [u] true
        = (entries ++ [⟨u, true⟩], true) := by
      simp only [setUrisTrust, setUrisTrustGo, if_true]
      rw [if_neg h]
    rw [h1]
    have h2 : (entries ++ [(⟨u, true⟩ : WorkspaceTrustUriInfo)]).any
        (fun trustInfo => isEqualURI trustInfo.uri u) = true := by
      simp [isEqualURI]
    simp [setUrisTrust, setUrisTrustGo, h2]

theorem setUrisTrustGo_trusted_invariant :
    ∀ (t : Bool) (uris : List URI) (entries : List WorkspaceTrustUriInfo)
      (ch : Bool),
      (∀ e ∈ entries, e.trusted = true) →
      ∀ e ∈ (setUrisTrustGo t uris entries ch).1, e.trusted = true
  | _, [], _, _, h => h
  | t, uri :: rest, entries, ch, h => by
    simp only [setUrisTrustGo]
    split
    · split
      · exact setUrisTrustGo_trusted_invariant t rest entries ch h
      · refine setUrisTrustGo_trusted_invariant t rest _ true ?_
        intro e he
        rcases List.mem_append.mp he with he | he
        · exact h e he
        · simp only [List.mem_singleton] at he
          subst he
          rfl
    · split
      · refine setUrisTrustGo_trusted_invariant t rest _ true ?_
        intro e he
        exact h e (List.mem_of_mem_filter he)
      · refine setUrisTrustGo_trusted_invariant t rest _ ch ?_
        intro e he
        exact h e (List.mem_of_mem_filter he)

theorem setTrustedFoldersGo_trusted :
    ∀ (uris : List URI) (acc : List WorkspaceTrustUriInfo),
      (∀ e ∈ acc, e.trusted = true) →
      ∀ e ∈ setTrustedFoldersGo uris acc, e.trusted = true
  | [], _, h => h
  | uri :: rest, acc, h => by
    simp only [setTrustedFoldersGo]
    split
    · exact setTrustedFoldersGo_trusted rest acc h
    · refine setTrustedFoldersGo_trusted rest _ ?_
      intro e he
      rcases List.mem_append.mp he with he | he
      · exact h e he
      · simp only [List.mem_singleton] at he
        subst he
        rfl

theorem isWorkpaceTrusted_setIsTrusted (s : TrustMemento) (b : Bool) :
    isWorkpaceTrusted (setIsTrusted s (some b)) = b := by
  cases b <;> simp [isWorkpaceTrusted, setIsTrusted]

theorem accepts_setIsTrusted_false (s : TrustMemento) :
    acceptsOutOfWorkspaceFiles (setIsTrusted s (some false)) = false := by
  simp [acceptsOutOfWorkspaceFiles, setIsTrusted]

theorem participateRun_all_ok :
    ∀ (t : Bool) (ps : List Participant),
      (∀ p ∈ ps, p.behavior t = Except.ok ()) →
      participateRun t ps = (ps.map fun p => p.id, none)
  | _, [], _ => rfl
  | t, p :: rest, h => by
    have hp := h p (List.mem_cons_self _ _)
    simp only [participateRun, hp, List.map_cons]
    rw [participateRun_all_ok t rest fun q hq => h q (List.mem_cons_of_mem _ hq)]

theorem participateRun_abort :
    ∀ (t : Bool) (pre : List Participant) (p : Participant)
      (post : List Participant) (e : String),
      (∀ q ∈ pre, q.behavior t = Except.ok ()) →
      p.behavior t = Except.error e →
      participateRun t (pre ++ p :: post)
        = ((pre.map fun q => q.id) ++ [p.id], some e)
  | _, [], p, post, e, _, hp => by
    simp [participateRun, hp]
  | t, q :: pre, p, post, e, h, hp => by
    have hq := h q (List.mem_cons_self _ _)
    simp only [List.cons_append, participateRun, hq, List.map_cons,
      List.append_eq]
    rw [participateRun_abort t pre p post e
      (fun r hr => h r (List.mem_cons_of_mem _ hr)) hp]

theorem remoteGuard_iff (ra : Bool) (rr : Option (Option Bool)) :
    (ra && (rr.isNone || (rr.bind id).isSome)) = true
      ↔ (ra = true ∧ (rr = none ∨ ∃ b, rr = some (some b))) := by
  cases ra <;> rcases rr with _ | _ | b <;> simp

/-! ### Claim theorems -/

/-- C1: `calculateWorkspaceTrust` evaluates a decision table in strict order
with first match winning: (1) trust feature disabled → `true`; (2) automated
extension test host → `true`; (3) remote workspace → the remote authority
resolution's `isTrusted` flag, `false` whenever resolution is pending or the
flag is absent; (4) empty workspace → the persisted per-workspace `isTrusted`
memento, defaulting to `false` when unset; (5) otherwise `true` iff every
canonicalized workspace root URI, plus the workspace configuration file URI
when the workspace is not untitled, resolves to `trusted = true` via
`getUriTrustInfo`. -/
theorem calculateWorkspaceTrust_decision_table (c : Ctx)
    (stateIsTrusted : Option Bool) :
    calculateWorkspaceTrust c stateIsTrusted = calculateTrustSpec c stateIsTrusted := by
  obtain ⟨te, et, ra, rr, ws, f, cfg, cu, sf, cn, en⟩ := c
  simp only [calculateWorkspaceTrust, calculateTrustSpec, getUrisTrust_eq_all]
  rcases rr with _ | _ | b <;> rcases stateIsTrusted with _ | b' <;> rfl

/-- C2: `getUriTrustInfo` returns the trusted flag and URI of the entry whose
URI is an ancestor-or-equal of the queried URI with the longest `fsPath`
string among all such entries, and `{trusted := false, uri := u}` when no
entry matches; concretely, with an entry for `/a` and none for `/a/b`,
querying `/a/b/c` matches `/a` with `trusted = true`, and adding `/a/b` as
trusted then removing it restores the `/a` match. -/
theorem getUriTrustInfo_longest_match :
    (∀ (entries : List WorkspaceTrustUriInfo) (u : URI),
        (∀ e ∈ entries, isEqualOrParent u e.uri = false) →
        getUriTrustInfo entries u = ⟨u, false⟩)
  ∧ (∀ (entries : List WorkspaceTrustUriInfo) (u : URI),
        (∃ e ∈ entries, isEqualOrParent u e.uri = true) →
        ∃ e ∈ entries, isEqualOrParent u e.uri = true ∧
          getUriTrustInfo entries u = ⟨e.uri, e.trusted⟩ ∧
          ∀ e' ∈ entries, isEqualOrParent u e'.uri = true →
            fsPathLen e'.uri ≤ fsPathLen e.uri)
  ∧ getUriTrustInfo entriesA uriABC = ⟨uriA, true⟩
  ∧ (setUrisTrust (setUrisTrust entriesA [uriAB] true).1 [uriAB] false).1
      = entriesA
  ∧ getUriTrustInfo
      (setUrisTrust (setUrisTrust entriesA [uriAB] true).1 [uriAB] false).1
      uriABC = ⟨uriA, true⟩ := by
  refine ⟨?_, ?_, by decide, by decide, by decide⟩
  · intro entries u h
    refine getUriTrustInfoGo_no_match u entries false (-1) u ?_
    intro e he hm
    rw [h e he] at hm
    exact absurd hm (by simp)
  · intro entries u h
    obtain ⟨e, he, hm⟩ := h
    have hex : ∃ e ∈ entries, isEqualOrParent u e.uri = true ∧
        (-1 : Int) < (fsPathLen e.uri : Int) :=
      ⟨e, he, hm, lt_of_lt_of_le (by norm_num) (Int.natCast_nonneg _)⟩
    obtain ⟨e1, he1, hm1, hgo, _, hmax⟩ :=
      getUriTrustInfoGo_match u entries false (-1) u hex
    exact ⟨e1, he1, hm1, hgo, fun e' he' hm' => Nat.cast_le.mp (hmax e' he' hm')⟩

/-- Witness for C2 at concrete inputs: the empty entry list yields the
no-match result, and the `/a` entry is the longest match for `/a/b/c`. -/
theorem getUriTrustInfo_longest_match_witness :
    getUriTrustInfo ([] : List WorkspaceTrustUriInfo) uriA = ⟨uriA, false⟩
  ∧ ∃ e ∈ entriesA, isEqualOrParent uriABC e.uri = true ∧
      getUriTrustInfo entriesA uriABC = ⟨e.uri, e.trusted⟩ ∧
      ∀ e' ∈ entriesA, isEqualOrParent uriABC e'.uri = true →
        fsPathLen e'.uri ≤ fsPathLen e.uri :=
  ⟨getUriTrustInfo_longest_match.1 [] uriA (by simp),
   getUriTrustInfo_longest_match.2.1 entriesA uriABC (by decide)⟩

/-- C7: whenever `isTrusted` is set to `false` (or to the unset value), the
`acceptsOutOfWorkspaceFiles` getter reads `false`, even if it was previously
`true`; in particular after `updateWorkspaceTrust` transitions workspace
trust to `false`, `acceptsOutOfWorkspaceFiles` is `false`. -/
theorem trust_false_resets_accepts :
    (∀ s : TrustMemento,
        acceptsOutOfWorkspaceFiles (setIsTrusted s (some false)) = false)
  ∧ (∀ s : TrustMemento,
        acceptsOutOfWorkspaceFiles (setIsTrusted s none) = false)
  ∧ (∀ (ps : List Participant) (c : Ctx) (s : UpdateState),
        isWorkpaceTrusted s.trustState = true →
        acceptsOutOfWorkspaceFiles
          (updateWorkspaceTrust ps c (some false) s).1.trustState = false) := by
  refine ⟨accepts_setIsTrusted_false, ?_, ?_⟩
  · intro s
    simp [acceptsOutOfWorkspaceFiles, setIsTrusted]
  · intro ps c s h
    have hcond : ¬ (isWorkpaceTrusted s.trustState = false) := by
      rw [h]
      simp
    simp only [updateWorkspaceTrust, resolveTrusted, hcond, if_false]
    cases hp : (participateRun false ps).2 <;>
      simp [hp, accepts_setIsTrusted_false]

/-- Witness for C7: a memento that currently accepts out-of-workspace files
loses that flag when trust transitions to `false`. -/
theorem trust_false_resets_accepts_witness :
    acceptsOutOfWorkspaceFiles
      (updateWorkspaceTrust [part1] ctx0 (some false)
        ⟨⟨some true, some true⟩, []⟩).1.trustState = false :=
  trust_false_resets_accepts.2.2 [part1] ctx0 ⟨⟨some true, some true⟩, []⟩
    (by decide)

/-- C3: transition participants are invoked sequentially in registration
order, each awaited before the next; when a participant's callback rejects,
no later-registered participant runs and `onDidChangeTrust` is not fired for
that transition; in particular with two registered participants where the
first throws, the second never runs and the event does not fire. -/
theorem participants_sequential_fail_fast :
    (∀ (t : Bool) (ps : List Participant),
        (∀ p ∈ ps, p.behavior t = Except.ok ()) →
        participateRun t ps = (ps.map fun p => p.id, none))
  ∧ (∀ (t : Bool) (pre : List Participant) (p : Participant)
        (post : List Participant) (e : String),
        (∀ q ∈ pre, q.behavior t = Except.ok ()) →
        p.behavior t = Except.error e →
        participateRun t (pre ++ p :: post)
          = ((pre.map fun q => q.id) ++ [p.id], some e))
  ∧ (∀ (c : Ctx) (s : UpdateState) (p1 p2 : Participant) (t : Bool)
        (e : String),
        p1.behavior t = Except.error e →
        ¬ isWorkpaceTrusted s.trustState = t →
        updateWorkspaceTrust [p1, p2] c (some t) s
          = ({ s with trustState := setIsTrusted s.trustState (some t) },
              [p1.id], some e)) := by
  refine ⟨participateRun_all_ok, participateRun_abort, ?_⟩
  intro c s p1 p2 t e hp1 hne
  have hrun : participateRun t [p1, p2] = ([p1.id], some e) := by
    simp [participateRun, hp1]
  simp only [updateWorkspaceTrust, resolveTrusted]
  rw [if_neg hne, hrun]

/-- Witness for C3: with a rejecting first participant and a succeeding
second one, only the first is invoked, no trust-change event is appended,
and the rejection propagates. -/
theorem participants_sequential_fail_fast_witness :
    participateRun true [part2] = ([part2].map fun p => p.id, none)
  ∧ participateRun true ([part2] ++ part1 :: [part2])
      = (([part2].map fun q => q.id) ++ [part1.id], some "fail")
  ∧ updateWorkspaceTrust [part1, part2] ctx0 (some true) st0
      = ({ st0 with trustState := setIsTrusted st0.trustState (some true) },
          [part1.id], some "fail") :=
  ⟨participants_sequential_fail_fast.1 true [part2]
      (fun p hp => by
        simp only [List.mem_singleton] at hp
        subst hp
        rfl),
   participants_sequential_fail_fast.2.1 true [part2] part1 [part2] "fail"
      (fun q hq => by
        simp only [List.mem_singleton] at hq
        subst hq
        rfl)
      rfl,
   participants_sequential_fail_fast.2.2 ctx0 st0 part1 part2 true "fail" rfl
      (by decide)⟩

/-- C10: `updateWorkspaceTrust` assigns the new trust value to the
per-workspace trust state before the transition participants run; when a
participant rejects, `isWorkpaceTrusted` already returns the new value,
`onDidChangeTrust` was not fired, and the rejection propagates — the state
change is not rolled back. -/
theorem updateWorkspaceTrust_assigns_before_participants
    (ps : List Participant) (c : Ctx) (explicit : Option Bool)
    (s : UpdateState) (e : String) :
    isWorkpaceTrusted s.trustState ≠ resolveTrusted c explicit s →
    (participateRun (resolveTrusted c explicit s) ps).2 = some e →
    isWorkpaceTrusted (updateWorkspaceTrust ps c explicit s).1.trustState
        = resolveTrusted c explicit s
    ∧ (updateWorkspaceTrust ps c explicit s).1.firedTrust = s.firedTrust
    ∧ (updateWorkspaceTrust ps c explicit s).2.2 = some e := by
  intro hne hp
  simp only [updateWorkspaceTrust]
  rw [if_neg hne]
  simp [hp, isWorkpaceTrusted_setIsTrusted]

/-- Witness for C10: a rejecting participant leaves the trust state already
updated, with no event fired. -/
theorem updateWorkspaceTrust_assigns_before_participants_witness :
    isWorkpaceTrusted
        (updateWorkspaceTrust [part1] ctx0 (some true) st0).1.trustState
      = resolveTrusted ctx0 (some true) st0
    ∧ (updateWorkspaceTrust [part1] ctx0 (some true) st0).1.firedTrust
        = st0.firedTrust
    ∧ (updateWorkspaceTrust [part1] ctx0 (some true) st0).2.2 = some "fail" :=
  updateWorkspaceTrust_assigns_before_participants [part1] ctx0 (some true)
    st0 "fail" (by decide) (by decide)

/-- C4: `canSetWorkspaceTrust` returns `false` if a remote authority is
configured and either not yet resolved or carrying an explicit `isTrusted`
value; returns `true` for an empty workspace; returns `true` when the
workspace is not currently trusted; and when the workspace is currently
trusted it returns `true` only if the workspace is a single folder on the
local (`file`) filesystem whose own exact-URI entry is the matching entry in
`getUriTrustInfo` and whose parent directory does not itself resolve to
trusted. -/
theorem canSetWorkspaceTrust_decision (c : Ctx) (stateIsTrusted : Option Bool) :
    (c.remoteAuthority = true →
      (c.remoteResolution = none ∨ ∃ b, c.remoteResolution = some (some b)) →
      canSetWorkspaceTrust c stateIsTrusted = false)
  ∧ (¬ (c.remoteAuthority = true ∧
        (c.remoteResolution = none ∨ ∃ b, c.remoteResolution = some (some b))) →
      c.workbenchState = WorkbenchState.empty →
      canSetWorkspaceTrust c stateIsTrusted = true)
  ∧ (¬ (c.remoteAuthority = true ∧
        (c.remoteResolution = none ∨ ∃ b, c.remoteResolution = some (some b))) →
      stateIsTrusted.getD false = false →
      canSetWorkspaceTrust c stateIsTrusted = true)
  ∧ (canSetWorkspaceTrust c stateIsTrusted = true →
      stateIsTrusted.getD false = true →
      c.workbenchState ≠ WorkbenchState.empty →
      ∃ u, c.singleFolder = some u ∧ u.scheme = "file" ∧
        (getUriTrustInfo c.entries u).trusted = true ∧
        (getUriTrustInfo c.entries u).uri = u ∧
        (getUriTrustInfo c.entries (parentUri u)).trusted = false) := by
  refine ⟨?_, ?_, ?_, ?_⟩
  · intro hra hrr
    have hg : (c.remoteAuthority
        && (c.remoteResolution.isNone || (c.remoteResolution.bind id).isSome))
          = true :=
      (remoteGuard_iff _ _).mpr ⟨hra, hrr⟩
    rw [canSetWorkspaceTrust, if_pos hg]
  · intro hng hempty
    have hg : (c.remoteAuthority
        && (c.remoteResolution.isNone || (c.remoteResolution.bind id).isSome))
          = false := by
      cases hgb : (c.remoteAuthority
          && (c.remoteResolution.isNone || (c.remoteResolution.bind id).isSome))
      · rfl
      · exact absurd ((remoteGuard_iff _ _).mp hgb) hng
    rw [canSetWorkspaceTrust, if_neg (by rw [hg]; simp), if_pos hempty]
  · intro hng huntrusted
    have hg : (c.remoteAuthority
        && (c.remoteResolution.isNone || (c.remoteResolution.bind id).isSome))
          = false := by
      cases hgb : (c.remoteAuthority
          && (c.remoteResolution.isNone || (c.remoteResolution.bind id).isSome))
      · rfl
      · exact absurd ((remoteGuard_iff _ _).mp hgb) hng
    rw [canSetWorkspaceTrust, if_neg (by rw [hg]; simp)]
    by_cases hw : c.workbenchState = WorkbenchState.empty
    · rw [if_pos hw]
    · rw [if_neg hw, if_pos (by rw [huntrusted]; simp)]
  · intro htrue htrusted hne
    cases hgb : (c.remoteAuthority
        && (c.remoteResolution.isNone || (c.remoteResolution.bind id).isSome))
    case true =>
      rw [canSetWorkspaceTrust, if_pos hgb] at htrue
      exact absurd htrue (by simp)
    case false =>
      rcases hsf : c.singleFolder with _ | u
      · simp [canSetWorkspaceTrust, hgb, hne, htrusted, hsf] at htrue
      · cases hsch : decide (u.scheme = "file")
        case false =>
          simp [canSetWorkspaceTrust, hgb, hne, htrusted, hsf, hsch] at htrue
        case true =>
          cases htr : (getUriTrustInfo c.entries u).trusted
          case false =>
            simp [canSetWorkspaceTrust, hgb, hne, htrusted, hsf, hsch,
              htr] at htrue
          case true =>
            cases heqb : isEqualURI u (getUriTrustInfo c.entries u).uri
            case false =>
              simp [canSetWorkspaceTrust, hgb, hne, htrusted, hsf, hsch, htr,
                heqb] at htrue
            case true =>
              cases hpt : (getUriTrustInfo c.entries (parentUri u)).trusted
              case true =>
                simp [canSetWorkspaceTrust, canSetParentFolderTrust, hgb, hne,
                  htrusted, hsf, hsch, htr, heqb, hpt] at htrue
              case false =>
                have hequ : u = (getUriTrustInfo c.entries u).uri :=
                  of_decide_eq_true
                    (show decide (u = (getUriTrustInfo c.entries u).uri) = true
                      from heqb)
                exact ⟨u, rfl, of_decide_eq_true hsch, htr, hequ.symm, hpt⟩

/-- Witness for C4: a pending remote authority forbids modifying trust, an
empty workspace allows it, an untrusted workspace allows it, and the trusted
single-folder context satisfies the claimed necessary conditions. -/
theorem canSetWorkspaceTrust_decision_witness :
    canSetWorkspaceTrust { ctx0 with remoteAuthority := true } none = false
  ∧ canSetWorkspaceTrust { ctx0 with workbenchState := WorkbenchState.empty }
      none = true
  ∧ canSetWorkspaceTrust ctx0 (some false) = true
  ∧ ∃ u, ctx0.singleFolder = some u ∧ u.scheme = "file" ∧
      (getUriTrustInfo ctx0.entries u).trusted = true ∧
      (getUriTrustInfo ctx0.entries u).uri = u ∧
      (getUriTrustInfo ctx0.entries (parentUri u)).trusted = false :=
  ⟨(canSetWorkspaceTrust_decision { ctx0 with remoteAuthority := true }
      none).1 rfl (Or.inl rfl),
   (canSetWorkspaceTrust_decision { ctx0 with
      workbenchState := WorkbenchState.empty } none).2.1
      (by rintro ⟨h, -⟩; exact absurd h (by decide)) rfl,
   (canSetWorkspaceTrust_decision ctx0 (some false)).2.2.1
      (by rintro ⟨h, -⟩; exact absurd h (by decide)) rfl,
   (canSetWorkspaceTrust_decision ctx0 (some true)).2.2.2
      (by decide) rfl (by decide)⟩

/-- C5: `setUrisTrust` is idempotent — adding `[u]` as trusted twice yields
the same entry set as adding it once (entries are deduplicated by exact-URI
equality); `setUrisTrust [u] false` removes every entry whose URI equals `u`;
and the trust info is saved and `updateWorkspaceTrust` triggered only when
the entry set actually changed — an unchanged call performs no save and
fires no trusted-folders change event. -/
theorem setUrisTrust_idempotent_change_gated :
    (∀ (entries : List WorkspaceTrustUriInfo) (u : URI),
        setUrisTrust (setUrisTrust entries [u] true).1 [u] true
          = ((setUrisTrust entries [u] true).1, false))
  ∧ (∀ (entries : List WorkspaceTrustUriInfo) (u : URI),
        (setUrisTrust entries [u] false).1
          = entries.filter fun trustInfo => ! isEqualURI trustInfo.uri u)
  ∧ (∀ (st : StoreState) (uris : List URI) (t : Bool),
        (setUrisTrust st.entries uris t).1 = st.entries →
        setUrisTrustOp st uris t = st)
  ∧ (∀ (st : StoreState) (uris : List URI) (t : Bool),
        (setUrisTrust st.entries uris t).1 ≠ st.entries →
        setUrisTrustOp st uris t
          = saveTrustInfoOp
              { st with entries := (setUrisTrust st.entries uris t).1 }) := by
  refine ⟨setUrisTrust_single_true_idem, setUrisTrust_single_false, ?_, ?_⟩
  · intro st uris t h
    have hch : (setUrisTrust st.entries uris t).2 = false := by
      cases hc : (setUrisTrust st.entries uris t).2
      · rfl
      · exact absurd h (setUrisTrust_changed_of_ne _ _ _ hc)
    simp only [setUrisTrustOp, hch, Bool.false_eq_true, if_false, h]
  · intro st uris t h
    have hch : (setUrisTrust st.entries uris t).2 = true := by
      cases hc : (setUrisTrust st.entries uris t).2
      · exact absurd (setUrisTrust_unchanged_of_not_changed _ _ _ hc) h
      · rfl
    simp only [setUrisTrustOp, hch, if_true]

/-- Witness for C5 at concrete inputs: re-adding `/a/b` is a no-op the
second time; an unchanged call leaves the store untouched; a changing call
saves exactly once. -/
theorem setUrisTrust_idempotent_change_gated_witness :
    setUrisTrust (setUrisTrust entriesA [uriAB] true).1 [uriAB] true
      = ((setUrisTrust entriesA [uriAB] true).1, false)
  ∧ setUrisTrustOp ⟨entriesA, 0, 0, 0⟩ [uriA] true = ⟨entriesA, 0, 0, 0⟩
  ∧ setUrisTrustOp ⟨entriesA, 0, 0, 0⟩ [uriAB] true
      = saveTrustInfoOp ⟨entriesA ++ [⟨uriAB, true⟩], 0, 0, 0⟩ :=
  ⟨setUrisTrust_idempotent_change_gated.1 entriesA uriAB,
   setUrisTrust_idempotent_change_gated.2.2.1 ⟨entriesA, 0, 0, 0⟩ [uriA] true
      (by decide),
   setUrisTrust_idempotent_change_gated.2.2.2 ⟨entriesA, 0, 0, 0⟩ [uriAB] true
      (by decide)⟩

/-- C6: every operation preserves the invariant that the in-memory entry
list only contains entries with `trusted = true`: loading filters out
entries deserialized with `trusted = false`, `setUrisTrust` preserves the
invariant, `setTrustedFolders` builds only trusted entries, and marking a
URI untrusted removes its entry rather than retaining a negative entry. -/
theorem trusted_entries_invariant :
    (∀ raw : Option (List WorkspaceTrustUriInfo),
        ∀ e ∈ loadTrustInfo raw, e.trusted = true)
  ∧ (∀ (entries : List WorkspaceTrustUriInfo) (uris : List URI) (t : Bool),
        (∀ e ∈ entries, e.trusted = true) →
        ∀ e ∈ (setUrisTrust entries uris t).1, e.trusted = true)
  ∧ (∀ uris : List URI, ∀ e ∈ setTrustedFolders uris, e.trusted = true)
  ∧ (∀ (entries : List WorkspaceTrustUriInfo) (u : URI),
        ∀ e ∈ (setUrisTrust entries [u] false).1,
          isEqualURI e.uri u = false) := by
  refine ⟨?_, ?_, ?_, ?_⟩
  · intro raw e he
    exact (List.mem_filter.mp he).2
  · intro entries uris t h e he
    exact setUrisTrustGo_trusted_invariant t uris entries false h e he
  · intro uris e he
    exact setTrustedFoldersGo_trusted uris [] (by simp) e he
  · intro entries u e he
    rw [setUrisTrust_single_false] at he
    have hb := (List.mem_filter.mp he).2
    simpa using hb

/-- Witness for C6 at concrete inputs: loading a list containing an
untrusted entry keeps only trusted entries, `setUrisTrust` preserves the
invariant on `entriesA`, `setTrustedFolders` builds trusted entries, and
removing `/a` leaves no entry equal to `/a`. -/
theorem trusted_entries_invariant_witness :
    (∀ e ∈ loadTrustInfo (some [⟨uriA, true⟩, ⟨uriAB, false⟩]),
        e.trusted = true)
  ∧ (∀ e ∈ (setUrisTrust entriesA [uriAB] true).1, e.trusted = true)
  ∧ (∀ e ∈ setTrustedFolders [uriA, uriAB], e.trusted = true)
  ∧ (∀ e ∈ (setUrisTrust entriesA [uriA] false).1,
        isEqualURI e.uri uriA = false) :=
  ⟨trusted_entries_invariant.1 (some [⟨uriA, true⟩, ⟨uriAB, false⟩]),
   trusted_entries_invariant.2.1 entriesA [uriAB] true (by decide),
   trusted_entries_invariant.2.2.1 [uriA, uriAB],
   trusted_entries_invariant.2.2.2 entriesA uriA⟩

/-- C8: `requestWorkspaceTrust` returns `true` immediately when the cached
trust state is already trusted; when a modal request is already pending it
returns the same pending promise without a second initiate-request signal;
and two calls made before any `completeRequest` share one promise, which a
single completion resolves with one value observed identically by both
callers. -/
theorem requestWorkspaceTrust_coalesced :
    (∀ s : RequestState, s.trusted = true →
        requestWorkspaceTrust s = (s, RequestOutcome.immediate true))
  ∧ (∀ (s : RequestState) (i : Nat), s.trusted = false → s.pending = some i →
        requestWorkspaceTrust s = (s, RequestOutcome.promise i))
  ∧ (∀ s : RequestState, s.trusted = false → s.pending = none →
        (requestWorkspaceTrust s).2 = RequestOutcome.promise s.nextId
        ∧ (requestWorkspaceTrust (requestWorkspaceTrust s).1).2
            = RequestOutcome.promise s.nextId
        ∧ (requestWorkspaceTrust (requestWorkspaceTrust s).1).1
            = (requestWorkspaceTrust s).1
        ∧ (requestWorkspaceTrust s).1.initiations = s.initiations + 1
        ∧ ∀ t : Option Bool, ∃ v : Option Bool,
            (completeRequest
              (requestWorkspaceTrust (requestWorkspaceTrust s).1).1 t).2
              = some (s.nextId, v)) := by
  refine ⟨?_, ?_, ?_⟩
  · intro s h
    simp [requestWorkspaceTrust, h]
  · intro s i h hp
    simp [requestWorkspaceTrust, h, hp]
  · intro s h hp
    have h1 : requestWorkspaceTrust s
        = ({ s with
              pending := some s.nextId
              nextId := s.nextId + 1
              initiations := s.initiations + 1 },
            RequestOutcome.promise s.nextId) := by
      simp [requestWorkspaceTrust, h, hp]
    have h2 : requestWorkspaceTrust (requestWorkspaceTrust s).1
        = ((requestWorkspaceTrust s).1, RequestOutcome.promise s.nextId) := by
      rw [h1]
      simp [requestWorkspaceTrust, h]
    refine ⟨by rw [h1], by rw [h2], by rw [h2], by rw [h1], ?_⟩
    intro t
    rw [h2, h1]
    rcases t with _ | b
    · exact ⟨some s.trusted, by simp [completeRequest, resolveRequest]⟩
    · refine ⟨some b, ?_⟩
      by_cases hb : b = s.trusted <;>
        simp [completeRequest, resolveRequest, setWorkspaceTrustModel, hb]

/-- Witness for C8 at a concrete state: an already-trusted state answers
immediately, a pending request is reused, and the coalescing scenario holds
from the untrusted empty state. -/
theorem requestWorkspaceTrust_coalesced_witness :
    requestWorkspaceTrust ⟨true, none, 0, 0⟩
      = (⟨true, none, 0, 0⟩, RequestOutcome.immediate true)
  ∧ requestWorkspaceTrust ⟨false, some 5, 7, 3⟩
      = (⟨false, some 5, 7, 3⟩, RequestOutcome.promise 5)
  ∧ (requestWorkspaceTrust ⟨false, none, 0, 0⟩).2 = RequestOutcome.promise 0
  ∧ ∃ v : Option Bool,
      (completeRequest
        (requestWorkspaceTrust
          (requestWorkspaceTrust ⟨false, none, 0, 0⟩).1).1
        (some true)).2 = some (0, v) :=
  ⟨requestWorkspaceTrust_coalesced.1 ⟨true, none, 0, 0⟩ rfl,
   requestWorkspaceTrust_coalesced.2.1 ⟨false, some 5, 7, 3⟩ 5 rfl rfl,
   (requestWorkspaceTrust_coalesced.2.2 ⟨false, none, 0, 0⟩ rfl rfl).1,
   (requestWorkspaceTrust_coalesced.2.2 ⟨false, none, 0, 0⟩ rfl
      rfl).2.2.2.2 (some true)⟩

/-- C9: `cancelRequest` resolves the pending modal trust request promise
with `undefined` (modelled `none` — never `some true` or `some false`) and
clears the pending request, so a subsequent `requestWorkspaceTrust` call
while still untrusted creates a fresh request. -/
theorem cancelRequest_resolves_undefined :
    (∀ (s : RequestState) (i : Nat), s.pending = some i →
        cancelRequest s
          = ({ s with pending := none }, some (i, (none : Option Bool))))
  ∧ (∀ s : RequestState, s.pending = none → cancelRequest s = (s, none))
  ∧ (∀ (s : RequestState) (i : Nat), s.pending = some i → s.trusted = false →
        requestWorkspaceTrust (cancelRequest s).1
          = ({ s with
                pending := some s.nextId
                nextId := s.nextId + 1
                initiations := s.initiations + 1 },
              RequestOutcome.promise s.nextId)) := by
  refine ⟨?_, ?_, ?_⟩
  · intro s i hp
    simp [cancelRequest, hp]
  · intro s hp
    simp [cancelRequest, hp]
  · intro s i hp ht
    have h1 : (cancelRequest s).1 = { s with pending := none } := by
      simp [cancelRequest, hp]
    rw [h1]
    simp [requestWorkspaceTrust, ht]

/-- Witness for C9 at a concrete state: cancelling resolves promise 4 with
`none` and a fresh request is created afterwards. -/
theorem cancelRequest_resolves_undefined_witness :
    cancelRequest ⟨false, some 4, 9, 2⟩
      = (⟨false, none, 9, 2⟩, some (4, (none : Option Bool)))
  ∧ requestWorkspaceTrust (cancelRequest ⟨false, some 4, 9, 2⟩).1
      = (⟨false, some 9, 10, 3⟩, RequestOutcome.promise 9) :=
  ⟨cancelRequest_resolves_undefined.1 ⟨false, some 4, 9, 2⟩ 4 rfl,
   cancelRequest_resolves_undefined.2.2 ⟨false, some 4, 9, 2⟩ 4 rfl rfl⟩

end WorkspaceTrust
